import Mathlib

/-
Verification of the Data_cleaner pipeline's change-tracking engine.

The definitions below are a shallow embedding of
  data_pipeline/transformers/data_cleaner.py   (UniversalDataCleaner)
  data_pipeline/transformers/ml_enhanced_cleaner.py  (MLEnhancedDataCleaner)
  data_pipeline/transformers/pytorch_encoder_cleaner.py (PyTorchEncoderCleaner)
  data_pipeline/utils/sql_manager.py           (ChangeReportManager)

Dataframes are modelled column-wise over rational numbers; the pandas row
index is kept explicitly because the cleaners log row labels.  Wall-clock
timestamps are not modelled: no verified property depends on their value,
only on record order, which is list order here.
-/

namespace Pipeline

/-- A cell of a pandas dataframe: missing (NaN/None), a string, or a number
(numbers are modelled as rationals). -/
inductive Cell
  | na
  | strv (s : String)
  | numv (q : ℚ)
  deriving DecidableEq, Repr

instance : Inhabited Cell := ⟨Cell.na⟩

/-- One column of a dataframe: its name, whether its dtype is `object`
(pandas string/mixed dtype), and its cells in row order. -/
structure ColData where
  name : String
  isObj : Bool
  cells : List Cell
  deriving DecidableEq, Repr

/-- A pandas dataframe: the row index labels (pandas keeps the original
labels through row filtering) and the columns; every column has one cell
per index label. -/
structure DF where
  index : List Nat
  cols : List ColData
  deriving DecidableEq, Repr

/-- One logged field-level mutation, as built by `_log_change`: the mutated
column, an operation tag, the before/after values already converted to
their canonical string form (Python None stays null), and the optional row
label. -/
structure ChangeRecord where
  column : String
  operation : String
  original_value : Option String
  new_value : Option String
  row_index : Option Nat
  deriving DecidableEq, Repr

/-- A dynamically typed Python value as passed to `_log_change`: None, a
string, a number, or a temporal value exposing an `isoformat` method.  For
a temporal value, `iso` is what `isoformat()` returns and `plain` what
generic `str()` returns (for a pd.Timestamp the two differ: `str` uses a
space separator instead of the ISO `T`). -/
inductive PyValue
  | none
  | str (s : String)
  | num (q : ℚ)
  | timestamp (iso : String) (plain : String)
  deriving DecidableEq, Repr

/-- Python `str()` of a value. -/
def pyStr : PyValue → String
  | .none => "None"
  | .str s => s
  | .num q => toString q
  | .timestamp _ plain => plain

/-- Whether the value has an `isoformat` attribute. -/
def hasIsoformat : PyValue → Bool
  | .timestamp _ _ => true
  | _ => false

/-- Result of calling `isoformat()` (only called when `hasIsoformat`). -/
def isoformatOf : PyValue → String
  | .timestamp iso _ => iso
  | v => pyStr v

/-- Value conversion in UniversalDataCleaner._log_change (data_cleaner.py
lines 128-147): None stays None; a value with an `isoformat` method is
converted via it (the isinstance branch for pd.Timestamp/datetime also
calls isoformat); anything else via generic str(). -/
def to_log_string : PyValue → Option String
  | .none => Option.none
  | v => if hasIsoformat v then some (isoformatOf v) else some (pyStr v)

/-- Value conversion in the PyTorchEncoderCleaner._log_change override
(pytorch_encoder_cleaner.py lines 18-28): every non-None value goes through
generic str(), with no isoformat dispatch. -/
def pytorch_to_log_string : PyValue → Option String
  | .none => Option.none
  | v => some (pyStr v)

/-- UniversalDataCleaner._log_change: append one record to the log. -/
def log_change (log : List ChangeRecord) (column operation : String)
    (original_value new_value : PyValue) (row_index : Option Nat) :
    List ChangeRecord :=
  log ++ [⟨column, operation, to_log_string original_value,
           to_log_string new_value, row_index⟩]

/-- PyTorchEncoderCleaner._log_change override: append one record, with the
plain-str value conversion. -/
def pytorch_log_change (log : List ChangeRecord) (column operation : String)
    (original_value new_value : PyValue) (row_index : Option Nat) :
    List ChangeRecord :=
  log ++ [⟨column, operation, pytorch_to_log_string original_value,
           pytorch_to_log_string new_value, row_index⟩]

/-- Canonical string of a rational, standing for Python str() of a number. -/
def rat_str (q : ℚ) : String := toString q

/-- The row of cells at position `p` (0-based position, not index label). -/
def row_at (cols : List ColData) (p : Nat) : List Cell :=
  cols.map (fun c => c.cells.getD p Cell.na)

/-- pandas isna over a whole row: every cell of the row is missing. -/
def row_all_na (cols : List ColData) (p : Nat) : Bool :=
  (row_at cols p).all (fun c => c == Cell.na)

/-- Whole-row equality as used by drop_duplicates (NaNs compare equal). -/
def row_eq (cols : List ColData) (p q : Nat) : Bool :=
  row_at cols p == row_at cols q

/-- Position `p` duplicates some earlier row. -/
def is_dup (cols : List ColData) (p : Nat) : Bool :=
  (List.range p).any (fun q => row_eq cols q p)

/-- The row positions kept by a boolean row mask, in order. -/
def kept_positions (df : DF) (keep : Nat → Bool) : List Nat :=
  (List.range df.index.length).filter keep

/-- Keep exactly the row positions satisfying `keep`, in order; the index
labels and every column are filtered by the same position set (pandas row
filtering keeps the original index labels). -/
def keep_rows (df : DF) (keep : Nat → Bool) : DF :=
  ⟨(kept_positions df keep).map (fun p => df.index.getD p 0),
   df.cols.map (fun c =>
     ⟨c.name, c.isObj, (kept_positions df keep).map (fun p => c.cells.getD p Cell.na)⟩)⟩

/-- `df.dropna(how="all")` (data_cleaner.py line 71). -/
def dropna_all (df : DF) : DF :=
  keep_rows df (fun p => !row_all_na df.cols p)

/-- `df.drop_duplicates()` (data_cleaner.py line 78); keeps first occurrences. -/
def drop_duplicates (df : DF) : DF :=
  keep_rows df (fun p => !is_dup df.cols p)

/-- The numeric values of a column; missing and non-numeric cells are
skipped, as pandas numeric aggregations skip NaN. -/
def numeric_values (cells : List Cell) : List ℚ :=
  cells.filterMap (fun c => match c with | .numv q => some q | _ => Option.none)

/-- Insert into an ascending list (structural insertion sort, standing for
the value sorting done inside pandas median/quantile/mode). -/
def insertSorted {α : Type} (le : α → α → Bool) (x : α) : List α → List α
  | [] => [x]
  | y :: ys => if le x y then x :: y :: ys else y :: insertSorted le x ys

/-- Sort a list ascending by `le`. -/
def sortBy {α : Type} (le : α → α → Bool) (l : List α) : List α :=
  l.foldr (insertSorted le) []

/-- Sort rationals ascending. -/
def sortRat (l : List ℚ) : List ℚ := sortBy (fun a b => decide (a ≤ b)) l

/-- pandas Series.median(): middle of the sorted non-missing values, or the
mean of the two middle ones; `none` models the NaN result on an all-missing
column. -/
def column_median (cells : List Cell) : Option ℚ :=
  let s := sortRat (numeric_values cells)
  if s.length = 0 then Option.none
  else if s.length % 2 = 1 then some (s.getD (s.length / 2) 0)
  else some ((s.getD (s.length / 2 - 1) 0 + s.getD (s.length / 2) 0) / 2)

/-- `fillna`: replace a missing cell by `v`, keep any other cell. -/
def fill_cell (v : Cell) : Cell → Cell
  | .na => v
  | c => c

/-- Missing-value handling for one column (data_cleaner.py lines 84-94):
object columns are filled with "Unknown", numeric columns with the column
median; ONE ChangeRecord is appended per affected column, with
original_value null and no row index.  On an all-missing numeric column the
median is NaN, fillna leaves the cells missing, and the logged new_value is
str(nan). -/
def fill_step (c : ColData) : ColData × List ChangeRecord :=
  if c.cells.countP (fun x => x == Cell.na) = 0 then (c, [])
  else if c.isObj then
    (⟨c.name, c.isObj, c.cells.map (fill_cell (Cell.strv "Unknown"))⟩,
     [⟨c.name, "fillna_categorical", Option.none, some "Unknown", Option.none⟩])
  else
    match column_median c.cells with
    | some m =>
        (⟨c.name, c.isObj, c.cells.map (fill_cell (Cell.numv m))⟩,
         [⟨c.name, "fillna_numeric", Option.none, some (rat_str m), Option.none⟩])
    | Option.none =>
        (c, [⟨c.name, "fillna_numeric", Option.none, some "nan", Option.none⟩])

/-- The missing-value loop over all columns, in column order. -/
def fill_missing (df : DF) : DF × List ChangeRecord :=
  (⟨df.index, df.cols.map (fun c => (fill_step c).1)⟩,
   (df.cols.map (fun c => (fill_step c).2)).flatten)

/-- The frame after the two row-dropping steps (empty rows, duplicates). -/
def dedup_stage (df : DF) : DF := drop_duplicates (dropna_all df)

/-- UniversalDataCleaner._basic_cleaning: drop fully-empty rows, drop exact
duplicates, then fill missing values column by column. -/
def basic_cleaning (df : DF) : DF × List ChangeRecord :=
  fill_missing (dedup_stage df)

/-- UniversalDataCleaner.clean_dataframe.  `prior` is the instance's
change_log at call time: the base cleaner does NOT reset it, so the new
records are appended after whatever was already there. -/
def clean_dataframe (prior : List ChangeRecord) (df : DF) : DF × List ChangeRecord :=
  let r := basic_cleaning df
  (r.1, prior ++ r.2)

/-- The integer part of (length - 1) * num/den: the lower interpolation
index of the num/den quantile of the sorted list `s`. -/
def quantile_index (s : List ℚ) (num den : Nat) : Nat :=
  ((s.length - 1) * num) / den

/-- The sorted value at the lower interpolation index. -/
def quantile_lower (s : List ℚ) (num den : Nat) : ℚ :=
  s.getD (quantile_index s num den) 0

/-- The sorted value one past the lower interpolation index (falling back
to the lower value at the end of the list, where the fraction is 0). -/
def quantile_upper (s : List ℚ) (num den : Nat) : ℚ :=
  s.getD (quantile_index s num den + 1) (quantile_lower s num den)

/-- pandas Series.quantile(num/den) with linear interpolation over the
sorted non-missing values (the cleaner calls it at 0.25 = 1/4 and
0.75 = 3/4): with h := (n-1)*num/den the result is
s[floor h] + (h - floor h) * (s[floor h + 1] - s[floor h]); `none` models
the NaN result on an all-missing column. -/
def quantile_linear (vals : List ℚ) (num den : Nat) : Option ℚ :=
  if sortRat vals = [] then Option.none
  else
    some (quantile_lower (sortRat vals) num den +
      (((((sortRat vals).length - 1) * num % den : Nat) : ℚ) / (den : ℚ)) *
      (quantile_upper (sortRat vals) num den - quantile_lower (sortRat vals) num den))

/-- Cap an out-of-bounds numeric value to the nearest bound. -/
def cap_cell (lo hi : ℚ) : Cell → Cell
  | .numv v => Cell.numv (if v < lo then lo else if hi < v then hi else v)
  | c => c

/-- The per-row outlier records of one numeric column: for each row whose
value lies outside the bounds, one ml_outlier_correction record with the
original value, the bound it was capped to, and the row's index label, in
row order (ml_enhanced_cleaner.py lines 96-105). -/
def outlier_records (name : String) (lo hi : ℚ) :
    List Nat → List Cell → List ChangeRecord
  | _, [] => []
  | [], _ :: _ => []
  | lbl :: ls, c :: cs =>
      (match c with
       | .numv v =>
           if v < lo then
             [⟨name, "ml_outlier_correction", some (rat_str v), some (rat_str lo), some lbl⟩]
           else if hi < v then
             [⟨name, "ml_outlier_correction", some (rat_str v), some (rat_str hi), some lbl⟩]
           else []
       | _ => []) ++ outlier_records name lo hi ls cs

/-- MLEnhancedDataCleaner.ml_outlier_detection for one column: compute the
IQR bounds Q1 - 1.5*IQR and Q3 + 1.5*IQR from the column quantiles and cap
every out-of-bounds value to the nearest bound, logging one record per
capped cell.  Object columns are skipped (select_dtypes), and on an
all-missing column the quantiles are NaN so every bound comparison is false
and nothing changes. -/
def ml_outlier_step (index : List Nat) (c : ColData) : ColData × List ChangeRecord :=
  if c.isObj then (c, [])
  else
    match quantile_linear (numeric_values c.cells) 1 4,
          quantile_linear (numeric_values c.cells) 3 4 with
    | some q1, some q3 =>
        (⟨c.name, c.isObj,
          c.cells.map (cap_cell (q1 - 3/2 * (q3 - q1)) (q3 + 3/2 * (q3 - q1)))⟩,
         outlier_records c.name (q1 - 3/2 * (q3 - q1)) (q3 + 3/2 * (q3 - q1))
           index c.cells)
    | _, _ => (c, [])

/-- MLEnhancedDataCleaner.ml_outlier_detection over all columns. -/
def ml_outlier_detection (df : DF) : DF × List ChangeRecord :=
  (⟨df.index, df.cols.map (fun c => (ml_outlier_step df.index c).1)⟩,
   (df.cols.map (fun c => (ml_outlier_step df.index c).2)).flatten)

/-- Python str.strip (leading/trailing whitespace removed). -/
def py_strip (s : String) : String := s.trim

/-- Helper for `py_title`: the Bool says whether the previous character was
alphabetic. -/
def py_title_go : Bool → List Char → List Char
  | _, [] => []
  | prevAlpha, ch :: rest =>
      (if prevAlpha then ch.toLower else ch.toUpper) :: py_title_go ch.isAlpha rest

/-- Python str.title: first letter of every alphabetic run uppercased, the
rest lowercased. -/
def py_title (s : String) : String := String.mk (py_title_go false s.data)

/-- The pandas `.str.strip().str.title()` accessor on one cell: strings are
transformed; a non-string cell in an object column becomes NaN, as the
`.str` accessor yields NaN on non-string elements. -/
def str_strip_title : Cell → Cell
  | .strv s => Cell.strv (py_title (py_strip s))
  | _ => Cell.na

/-- ml_pattern_correction logging for one column: a record per cell whose
value is non-missing before and after and actually changed
(ml_enhanced_cleaner.py lines 130-134). -/
def pattern_records (name : String) : List Nat → List Cell → List ChangeRecord
  | _, [] => []
  | [], _ :: _ => []
  | lbl :: ls, c :: cs =>
      (match c with
       | .strv s =>
           let t := py_title (py_strip s)
           if s = t then []
           else [⟨name, "ml_text_standardization", some s, some t, some lbl⟩]
       | _ => []) ++ pattern_records name ls cs

/-- MLEnhancedDataCleaner.ml_pattern_correction for one column. -/
def ml_pattern_step (index : List Nat) (c : ColData) : ColData × List ChangeRecord :=
  if c.isObj then
    (⟨c.name, c.isObj, c.cells.map str_strip_title⟩, pattern_records c.name index c.cells)
  else (c, [])

/-- MLEnhancedDataCleaner.ml_pattern_correction over all columns. -/
def ml_pattern_correction (df : DF) : DF × List ChangeRecord :=
  (⟨df.index, df.cols.map (fun c => (ml_pattern_step df.index c).1)⟩,
   (df.cols.map (fun c => (ml_pattern_step df.index c).2)).flatten)

/-- MLEnhancedDataCleaner.clean_dataframe: RESETS the change log (the
`prior` log is discarded), then basic cleaning, outlier capping and pattern
correction; the returned log holds only this call's records, in order. -/
def ml_clean_dataframe (_prior : List ChangeRecord) (df : DF) :
    DF × List ChangeRecord :=
  let r1 := basic_cleaning df
  let r2 := ml_outlier_detection r1.1
  let r3 := ml_pattern_correction r2.1
  (r3.1, r1.2 ++ r2.2 ++ r3.2)

/-- A total order on cells used to model the sorted result of
pandas Series.mode(). -/
def cell_le : Cell → Cell → Bool
  | .na, _ => true
  | _, .na => false
  | .numv a, .numv b => decide (a ≤ b)
  | .numv _, .strv _ => true
  | .strv _, .numv _ => false
  | .strv a, .strv b => decide (a ≤ b)

/-- pandas `Series.mode()[0]`: drop missing values, pick the most frequent
remaining value, breaking ties by the smallest (mode returns its result
sorted); `none` models the empty mode of an all-missing column. -/
def column_mode (cells : List Cell) : Option Cell :=
  let vals := sortBy cell_le (cells.filter (fun c => !(c == Cell.na)))
  vals.foldl
    (fun acc v =>
      match acc with
      | Option.none => some v
      | some b => if vals.count v > vals.count b then some v else acc)
    Option.none

/-- PyTorchEncoderCleaner.enhanced_imputation logging for one column: one
pytorch_imputation record per missing cell, with the cell's row label
(pytorch_encoder_cleaner.py lines 180-184). -/
def imputation_records (name : String) (newv : Option String) :
    List Nat → List Cell → List ChangeRecord
  | _, [] => []
  | [], _ :: _ => []
  | lbl :: ls, c :: cs =>
      (if c == Cell.na
       then [⟨name, "pytorch_imputation", Option.none, newv, some lbl⟩]
       else [])
      ++ imputation_records name newv ls cs

/-- PyTorchEncoderCleaner.enhanced_imputation for one column: when the
column still has missing values, numeric columns are filled with the
median, object columns with the mode (or "Unknown" when the mode is empty),
and one record is logged per missing cell. -/
def enhanced_imputation_step (index : List Nat) (c : ColData) :
    ColData × List ChangeRecord :=
  if c.cells.countP (fun x => x == Cell.na) = 0 then (c, [])
  else
    let fill : Option Cell :=
      if c.isObj then some ((column_mode c.cells).getD (Cell.strv "Unknown"))
      else (column_median c.cells).map Cell.numv
    let newv : Option String :=
      match fill with
      | some (Cell.strv s) => some s
      | some (Cell.numv q) => some (rat_str q)
      | _ => some "nan"
    (⟨c.name, c.isObj, c.cells.map (fill_cell (fill.getD Cell.na))⟩,
     imputation_records c.name newv index c.cells)

/-- PyTorchEncoderCleaner.enhanced_imputation over all columns. -/
def enhanced_imputation (df : DF) : DF × List ChangeRecord :=
  (⟨df.index, df.cols.map (fun c => (enhanced_imputation_step df.index c).1)⟩,
   (df.cols.map (fun c => (enhanced_imputation_step df.index c).2)).flatten)

/-- PyTorchEncoderCleaner.correct_anomalies.  The torch autoencoder is not
modelled; `detected` is the list of (row label, formatted score) pairs it
reports, or `none` when the torch step raises (the exception is caught and
nothing is logged).  Each detection is logged without changing the data. -/
def correct_anomalies (df : DF) (detected : Option (List (Nat × String))) :
    DF × List ChangeRecord :=
  (df, (detected.getD []).map (fun d =>
    ⟨"ALL", "pytorch_anomaly_detection", some "anomaly_detected",
     some ("score_" ++ d.2), some d.1⟩))

/-- PyTorchEncoderCleaner.clean_dataframe: RESETS the log, delegates to a
fresh UniversalDataCleaner and absorbs its records first, then logs anomaly
detections and runs the enhanced imputation (success path of the
try/except around the delegation). -/
def pytorch_clean_dataframe (_prior : List ChangeRecord) (df : DF)
    (detected : Option (List (Nat × String))) : DF × List ChangeRecord :=
  let basic := clean_dataframe [] df
  let anom := correct_anomalies basic.1 detected
  let imp := enhanced_imputation anom.1
  (imp.1, basic.2 ++ anom.2 ++ imp.2)

/-- Which of the four export sinks raise while being written. -/
structure SinkFails where
  parquet : Bool
  sqlite : Bool
  json : Bool
  csv : Bool
  deriving DecidableEq, Repr

/-- An artifact produced by save_change_report: the created output
directory, or one of the four sink files with the rows / summary inside. -/
inductive Artifact
  | dir
  | parquetFile (rows : List ChangeRecord)
  | sqliteFile (rows : List ChangeRecord)
  | jsonSummary (total_changes : Nat)
  | csvSample (rows : List ChangeRecord)
  deriving DecidableEq, Repr

/-- UniversalDataCleaner.save_change_report: with an empty log it prints a
notice and returns before creating the directory or any file; otherwise the
output directory is created and each of the four sinks is written inside
its own try/except (`f` says which sinks raise; a failed sink is skipped
with a warning and the remaining ones are still attempted).  The CSV sample
holds the first min(1000, n) records. -/
def save_change_report (log : List ChangeRecord) (f : SinkFails) : List Artifact :=
  if log.isEmpty then []
  else
    [Artifact.dir]
    ++ (if f.parquet then [] else [Artifact.parquetFile log])
    ++ (if f.sqlite then [] else [Artifact.sqliteFile log])
    ++ (if f.json then [] else [Artifact.jsonSummary log.length])
    ++ (if f.csv then [] else [Artifact.csvSample (log.take (min 1000 log.length))])

/-- Run metadata handed to ChangeReportManager.store_pipeline_run. -/
structure RunData where
  timestamp : String
  cleaner_type : String
  input_file : Option String
  output_file : Option String
  total_records : Option Int
  total_changes : Option Int
  duration_seconds : Option ℚ
  deriving DecidableEq, Repr

/-- One row of the pipeline_runs table. -/
structure RunRow where
  run_id : Nat
  timestamp : String
  cleaner_type : String
  input_file : Option String
  output_file : Option String
  total_records : Option Int
  total_changes : Option Int
  duration_seconds : Option ℚ
  status : String
  deriving DecidableEq, Repr

/-- One row of the changes frame handed to store_pipeline_run; every field
is optional (`change.get(...)` returns None for a missing field). -/
structure ChgInput where
  timestamp : Option String
  column : Option String
  operation : Option String
  original_value : Option String
  new_value : Option String
  row_index : Option Int
  deriving DecidableEq, Repr

/-- The changes dataframe: whether a 'column' field exists, and the rows. -/
structure ChangesFrame where
  hasColumnField : Bool
  rows : List ChgInput
  deriving DecidableEq, Repr

/-- One row of the changes table. -/
structure ChgRow where
  change_id : Nat
  run_id : Nat
  timestamp : String
  column_name : Option String
  operation : Option String
  original_value : Option String
  new_value : Option String
  row_index : Option Int
  deriving DecidableEq, Repr

/-- The registry database: both tables plus the autoincrement counters. -/
structure RegistryDB where
  nextRunId : Nat
  nextChangeId : Nat
  runs : List RunRow
  changes : List ChgRow
  deriving DecidableEq, Repr

/-- The run row inserted by store_pipeline_run (status defaults to
'completed'). -/
def mk_run_row (run_id : Nat) (rd : RunData) : RunRow :=
  ⟨run_id, rd.timestamp, rd.cleaner_type, rd.input_file, rd.output_file,
   rd.total_records, rd.total_changes, rd.duration_seconds, "completed"⟩

/-- INSERT INTO pipeline_runs. -/
def insert_run_row (db : RegistryDB) (rd : RunData) : RegistryDB :=
  { db with nextRunId := db.nextRunId + 1,
            runs := db.runs ++ [mk_run_row db.nextRunId rd] }

/-- INSERT INTO changes, one row; a missing timestamp defaults to the call
time `nowIso` (datetime.now().isoformat()). -/
def insert_change_row (db : RegistryDB) (run_id : Nat) (nowIso : String)
    (r : ChgInput) : RegistryDB :=
  { db with
    nextChangeId := db.nextChangeId + 1,
    changes := db.changes ++
      [⟨db.nextChangeId, run_id, r.timestamp.getD nowIso, r.column, r.operation,
        r.original_value, r.new_value, r.row_index⟩] }

/-- The change-row insertion loop; `failAt = some k` models an exception
raised while inserting the k-th row (0-based). -/
def insert_changes (run_id : Nat) (nowIso : String) (failAt : Option Nat) :
    RegistryDB → Nat → List ChgInput → Except Unit RegistryDB
  | db, _, [] => Except.ok db
  | db, k, r :: rest =>
      if failAt = some k then Except.error ()
      else insert_changes run_id nowIso failAt
             (insert_change_row db run_id nowIso r) (k + 1) rest

/-- The change rows the loop iterates over: none when the frame is empty or
has no 'column' field — that case is skipped silently
(sql_manager.py line 90). -/
def effective_rows (cdf : ChangesFrame) : List ChgInput :=
  if cdf.rows.isEmpty || !cdf.hasColumnField then [] else cdf.rows

/-- ChangeReportManager.store_pipeline_run: inside one transaction, insert
the run row then every change row; on any exception (`failRun` for the run
insert, `failAt` for a change insert) the transaction is rolled back to the
connection's committed state and no identifier is returned; otherwise the
transaction commits and the fresh run id is returned. -/
def store_pipeline_run (db : RegistryDB) (rd : RunData) (cdf : ChangesFrame)
    (nowIso : String) (failRun : Bool) (failAt : Option Nat) :
    RegistryDB × Option Nat :=
  let attempt : Except Unit RegistryDB :=
    if failRun then Except.error ()
    else insert_changes db.nextRunId nowIso failAt (insert_run_row db rd) 0
           (effective_rows cdf)
  match attempt with
  | Except.ok pending => (pending, some db.nextRunId)
  | Except.error _ => (db, Option.none)

/-- The columns selected by get_recent_runs. -/
structure RunSummary where
  run_id : Nat
  timestamp : String
  cleaner_type : String
  input_file : Option String
  total_records : Option Int
  total_changes : Option Int
  deriving DecidableEq, Repr

/-- ChangeReportManager.get_recent_runs: run summaries ordered by timestamp
descending (SQLite text ordering), limited. -/
def get_recent_runs (db : RegistryDB) (limit : Nat) : List RunSummary :=
  ((db.runs.mergeSort (fun a b => decide (b.timestamp ≤ a.timestamp))).take limit).map
    (fun r => ⟨r.run_id, r.timestamp, r.cleaner_type, r.input_file,
               r.total_records, r.total_changes⟩)

/-- Default column used with `List.getD`. -/
def defCol : ColData := ⟨"", false, []⟩

/-- The donor log a PyTorch cleaning call absorbs: the log produced by the
fresh inner UniversalDataCleaner it delegates to. -/
def donor_log (df : DF) : List ChangeRecord := (clean_dataframe [] df).2

/-- The records the PyTorch cleaner adds itself after absorbing the donor
log: anomaly detections, then enhanced-imputation records. -/
def pytorch_own_records (df : DF) (detected : Option (List (Nat × String))) :
    List ChangeRecord :=
  (correct_anomalies (clean_dataframe [] df).1 detected).2 ++
  (enhanced_imputation (correct_anomalies (clean_dataframe [] df).1 detected).1).2

/-- No two row positions of the frame hold identical rows. -/
def no_duplicate_rows (df : DF) : Prop :=
  ∀ p q : Nat, p < q → q < df.index.length → row_at df.cols p ≠ row_at df.cols q

/-- No row position of the frame is entirely missing. -/
def no_empty_rows (df : DF) : Prop :=
  ∀ p : Nat, p < df.index.length → row_all_na df.cols p = false

/-- Example frame: a numeric column of two equal values and an object column
in which one row is missing and the other already holds "Unknown"; the rows
are distinct at deduplication time but the fill makes them identical. -/
def exDupDF : DF :=
  ⟨[0, 1], [⟨"a", false, [Cell.numv 1, Cell.numv 1]⟩,
            ⟨"b", true, [Cell.na, Cell.strv "Unknown"]⟩]⟩

/-- Example frame: a numeric column with distinct values and an object
column missing in both rows. -/
def exMissDF : DF :=
  ⟨[0, 1], [⟨"a", false, [Cell.numv 1, Cell.numv 2]⟩,
            ⟨"b", true, [Cell.na, Cell.na]⟩]⟩

/-- Example frame with the numeric column [1, 2, 2, 3, 100] used by the
spec's end-to-end outlier example. -/
def exOutlierDF : DF :=
  ⟨[0, 1, 2, 3, 4], [⟨"x", false, [Cell.numv 1, Cell.numv 2, Cell.numv 2,
                                   Cell.numv 3, Cell.numv 100]⟩]⟩

/-- A change record left in a cleaner instance's log by an earlier call. -/
def exRecord : ChangeRecord := ⟨"x", "manual", Option.none, Option.none, Option.none⟩

/-- A temporal value whose isoformat() and str() denotations differ, like a
pd.Timestamp does. -/
def exTimestamp : PyValue :=
  PyValue.timestamp "2024-01-01T00:00:00" "2024-01-01 00:00:00"

/-- Example registry database, run metadata and changes frames. -/
def exDB : RegistryDB := ⟨0, 0, [], []⟩

def exRun : RunData :=
  ⟨"2024-02-02T00:00:00", "ml_enhanced", Option.none, Option.none,
   some 4, some 1, Option.none⟩

def exChg : ChgInput :=
  ⟨Option.none, some "b", some "fillna_categorical", Option.none,
   some "Unknown", Option.none⟩

def exFrame : ChangesFrame := ⟨true, [exChg]⟩

def exEmptyFrame : ChangesFrame := ⟨true, []⟩

def exLog : List ChangeRecord :=
  [⟨"b", "fillna_categorical", Option.none, some "Unknown", Option.none⟩]

def exFails : SinkFails := ⟨true, false, false, false⟩

end Pipeline

namespace Pipeline

/-! ## General helper lemmas -/

lemma getD_map_of_lt {α β : Type} (f : α → β) (l : List α) (i : Nat) (d : β)
    (d0 : α) (h : i < l.length) :
    (l.map f).getD i d = f (l.getD i d0) := by
  rw [List.getD_eq_getElem _ _ (by simpa using h), List.getD_eq_getElem _ _ h,
    List.getElem_map]

lemma split_at_getElem {α : Type} (l : List α) (i : Nat) (h : i < l.length) :
    l = l.take i ++ l[i] :: l.drop (i + 1) := by
  conv_lhs => rw [← List.take_append_drop i l]
  rw [List.getElem_cons_drop]

lemma countP_flatten_split {α : Type} (p : ChangeRecord → Bool)
    (F : α → List ChangeRecord) (l1 l2 : List α) (c : α)
    (h1 : ∀ a ∈ l1, ∀ r ∈ F a, p r = false)
    (h2 : ∀ a ∈ l2, ∀ r ∈ F a, p r = false) :
    (((l1 ++ c :: l2).map F).flatten).countP p = (F c).countP p := by
  have z : ∀ (l : List α), (∀ a ∈ l, ∀ r ∈ F a, p r = false) →
      ((l.map F).flatten).countP p = 0 := by
    intro l hl
    rw [List.countP_eq_zero]
    intro r hr
    rw [List.mem_flatten] at hr
    obtain ⟨m, hm, hrm⟩ := hr
    obtain ⟨a, ha, rfl⟩ := List.mem_map.mp hm
    simp [hl a ha r hrm]
  simp only [List.map_append, List.map_cons, List.flatten_append,
    List.flatten_cons, List.countP_append, z l1 h1, z l2 h2]
  omega

lemma mem_flatten_split {α : Type} (p : ChangeRecord → Bool)
    (F : α → List ChangeRecord) (l1 l2 : List α) (c : α)
    (h1 : ∀ a ∈ l1, ∀ r ∈ F a, p r = false)
    (h2 : ∀ a ∈ l2, ∀ r ∈ F a, p r = false)
    (r : ChangeRecord) (hr : r ∈ (((l1 ++ c :: l2).map F).flatten))
    (hp : p r = true) : r ∈ F c := by
  rw [List.mem_flatten] at hr
  obtain ⟨m, hm, hrm⟩ := hr
  rw [List.mem_map] at hm
  obtain ⟨a, ha, rfl⟩ := hm
  rw [List.mem_append, List.mem_cons] at ha
  rcases ha with ha | rfl | ha
  · exact absurd hp (by simp [h1 a ha r hrm])
  · exact hrm
  · exact absurd hp (by simp [h2 a ha r hrm])

lemma nodup_name_split {l : List ColData} {i : Nat} (h : i < l.length)
    (hn : (l.map ColData.name).Nodup) :
    (∀ c ∈ l.take i, c.name ≠ l[i].name) ∧
    (∀ c ∈ l.drop (i + 1), c.name ≠ l[i].name) := by
  have hsplit := split_at_getElem l i h
  rw [hsplit, List.map_append, List.map_cons, List.nodup_append] at hn
  obtain ⟨-, h2, hd⟩ := hn
  rw [List.nodup_cons] at h2
  constructor
  · intro c hc heq
    exact hd (List.mem_map.mpr ⟨c, hc, heq⟩) (by simp)
  · intro c hc heq
    exact h2.1 (List.mem_map.mpr ⟨c, hc, heq⟩)

lemma filter_range_getD_lt (n : Nat) (keep : Nat → Bool) (k : Nat)
    (hk : k < ((List.range n).filter keep).length) :
    ((List.range n).filter keep).getD k 0 < n ∧
    keep (((List.range n).filter keep).getD k 0) = true := by
  have hmem : ((List.range n).filter keep).getD k 0 ∈ (List.range n).filter keep := by
    rw [List.getD_eq_getElem _ _ hk]
    exact List.getElem_mem hk
  obtain ⟨h1, h2⟩ := List.mem_filter.mp hmem
  exact ⟨List.mem_range.mp h1, h2⟩

lemma filter_range_getD_mono (n : Nat) (keep : Nat → Bool) (k l : Nat)
    (hkl : k < l) (hl : l < ((List.range n).filter keep).length) :
    ((List.range n).filter keep).getD k 0 < ((List.range n).filter keep).getD l 0 := by
  have hp : ((List.range n).filter keep).Pairwise (· < ·) :=
    (List.pairwise_lt_range n).filter keep
  have hk : k < ((List.range n).filter keep).length := lt_trans hkl hl
  rw [List.getD_eq_getElem _ _ hk, List.getD_eq_getElem _ _ hl]
  have := List.pairwise_iff_get.mp hp ⟨k, hk⟩ ⟨l, hl⟩ hkl
  simpa using this

/-! ## Claim theorems: report exporter -/

/-- C10: when the change log is empty, save_change_report returns
immediately after printing a notice and writes none of the four artifact
files — no directory is created and the filesystem is left unchanged. -/
theorem c10_save_change_report_empty_writes_nothing (f : SinkFails) :
    save_change_report [] f = [] := rfl

/-- C8: the four export sinks of save_change_report are independent: an
exception raised while writing any one sink is caught (non-fatal), and each
remaining sink is still attempted and written unaffected — with a nonempty
log, the presence and contents of each sink's artifact depend only on that
sink's own failure flag. -/
theorem c8_export_sinks_independent (log : List ChangeRecord) (f : SinkFails)
    (h : log ≠ []) :
    Artifact.dir ∈ save_change_report log f ∧
    (Artifact.parquetFile log ∈ save_change_report log f ↔ f.parquet = false) ∧
    (Artifact.sqliteFile log ∈ save_change_report log f ↔ f.sqlite = false) ∧
    (Artifact.jsonSummary log.length ∈ save_change_report log f ↔ f.json = false) ∧
    (Artifact.csvSample (log.take (min 1000 log.length)) ∈ save_change_report log f ↔
      f.csv = false) := by
  have hne : log.isEmpty = false := by
    cases log with
    | nil => exact absurd rfl h
    | cons a l => rfl
  obtain ⟨p, s, j, c⟩ := f
  cases p <;> cases s <;> cases j <;> cases c <;>
    simp [save_change_report, hne]

theorem c8_export_sinks_independent_witness :
    exLog ≠ [] ∧
    (Artifact.dir ∈ save_change_report exLog exFails ∧
     (Artifact.parquetFile exLog ∈ save_change_report exLog exFails ↔
       exFails.parquet = false) ∧
     (Artifact.sqliteFile exLog ∈ save_change_report exLog exFails ↔
       exFails.sqlite = false) ∧
     (Artifact.jsonSummary exLog.length ∈ save_change_report exLog exFails ↔
       exFails.json = false) ∧
     (Artifact.csvSample (exLog.take (min 1000 exLog.length)) ∈
        save_change_report exLog exFails ↔ exFails.csv = false)) :=
  ⟨by decide, c8_export_sinks_independent exLog exFails (by decide)⟩

/-! ## Claim theorems: log append (C7) -/

/-- C7 counterexample: the claim says every strategy variant's append
converts a value exposing an isoformat capability via that capability, but
the PyTorch cleaner's override converts every non-null value via generic
str(): on a timestamp-like value it stores the str() form, not the ISO
form. -/
theorem c7_counterexample :
    hasIsoformat exTimestamp = true ∧
    pytorch_to_log_string exTimestamp ≠ some (isoformatOf exTimestamp) ∧
    pytorch_to_log_string exTimestamp = some "2024-01-01 00:00:00" ∧
    to_log_string exTimestamp = some "2024-01-01T00:00:00" := by decide

/-- C7 amended: the log-append operation is total for every variant — any
value is stored as a canonical string, or null when the input is null.  The
base cleaner's _log_change converts a value exposing an isoformat
capability via that capability and every other non-null value via generic
string conversion; the PyTorch cleaner's override instead converts every
non-null value via generic string conversion (temporal values are stored in
their str() form there, not their ISO form). -/
theorem c7_amended_log_append_total (log : List ChangeRecord)
    (column operation : String) (ov nv : PyValue) (idx : Option Nat)
    (s iso plain : String) (q : ℚ) :
    (log_change log column operation ov nv idx =
      log ++ [⟨column, operation, to_log_string ov, to_log_string nv, idx⟩]) ∧
    (pytorch_log_change log column operation ov nv idx =
      log ++ [⟨column, operation, pytorch_to_log_string ov,
               pytorch_to_log_string nv, idx⟩]) ∧
    to_log_string PyValue.none = Option.none ∧
    to_log_string (PyValue.timestamp iso plain) = some iso ∧
    to_log_string (PyValue.str s) = some s ∧
    to_log_string (PyValue.num q) = some (rat_str q) ∧
    pytorch_to_log_string PyValue.none = Option.none ∧
    pytorch_to_log_string (PyValue.timestamp iso plain) = some plain ∧
    pytorch_to_log_string (PyValue.str s) = some s ∧
    pytorch_to_log_string (PyValue.num q) = some (rat_str q) :=
  ⟨rfl, rfl, rfl, rfl, rfl, rfl, rfl, rfl, rfl, rfl⟩

/-! ## Claim theorems: log ownership and composition (C4, C5) -/

/-- C4 counterexample: the claim says every variant resets the ChangeLog at
the start of clean_dataframe, but the base/traditional cleaner does not: a
record left from before the call is still in the log afterwards, so the log
does not contain only records produced by that call. -/
theorem c4_counterexample :
    (clean_dataframe [exRecord] exMissDF).2 ≠ (clean_dataframe [] exMissDF).2 ∧
    exRecord ∈ (clean_dataframe [exRecord] exMissDF).2 := by decide

/-- C4 amended: the ML and PyTorch variants reset the change log at the
start of each clean_dataframe call (their result is independent of the
instance's prior log), but the base/traditional cleaner does not reset: its
log after the call is the prior log with this call's records appended. -/
theorem c4_amended_log_reset (prior : List ChangeRecord) (df : DF)
    (detected : Option (List (Nat × String))) :
    ml_clean_dataframe prior df = ml_clean_dataframe [] df ∧
    pytorch_clean_dataframe prior df detected =
      pytorch_clean_dataframe [] df detected ∧
    (clean_dataframe prior df).2 = prior ++ (clean_dataframe [] df).2 := by
  refine ⟨rfl, rfl, ?_⟩
  simp [clean_dataframe]

/-- C5: when the PyTorch cleaner delegates to the inner UniversalDataCleaner
and absorbs its log, the merged log is exactly the donor log followed by the
composing strategy's own new records: the count is the sum of the two and
the relative order of both sides is preserved. -/
theorem c5_composition_merged_log (prior : List ChangeRecord) (df : DF)
    (detected : Option (List (Nat × String))) :
    (pytorch_clean_dataframe prior df detected).2 =
      donor_log df ++ pytorch_own_records df detected ∧
    (pytorch_clean_dataframe prior df detected).2.length =
      (donor_log df).length + (pytorch_own_records df detected).length ∧
    (pytorch_clean_dataframe prior df detected).2.take (donor_log df).length =
      donor_log df ∧
    (pytorch_clean_dataframe prior df detected).2.drop (donor_log df).length =
      pytorch_own_records df detected := by
  have h : (pytorch_clean_dataframe prior df detected).2 =
      donor_log df ++ pytorch_own_records df detected := by
    simp [pytorch_clean_dataframe, donor_log, pytorch_own_records,
      List.append_assoc]
  refine ⟨h, ?_, ?_, ?_⟩
  · rw [h, List.length_append]
  · rw [h, List.take_left]
  · rw [h, List.drop_left]

/-! ## Claim theorems: run registry (C2, C9) -/

lemma insert_changes_error (run_id : Nat) (nowIso : String) (k : Nat) :
    ∀ (rows : List ChgInput) (db : RegistryDB) (s : Nat),
      s ≤ k → k < s + rows.length →
      insert_changes run_id nowIso (some k) db s rows = Except.error () := by
  intro rows
  induction rows with
  | nil =>
      intro db s h1 h2
      simp at h2
      omega
  | cons r rest ih =>
      intro db s h1 h2
      by_cases hk : k = s
      · subst hk
        simp [insert_changes]
      · have hs : s < k := lt_of_le_of_ne h1 (Ne.symm hk)
        have hcond : ¬((some k : Option Nat) = some s) := by simpa using hk
        rw [insert_changes, if_neg hcond]
        exact ih _ (s + 1) hs (by simp at h2 ⊢; omega)

/-- C2: store_pipeline_run is atomic: the run row and all change rows are
inserted within a single transaction, and if any exception occurs —
including mid-batch during change-row insertion — the whole transaction is
rolled back, no identifier is returned, and get_recent_runs afterwards
shows no run with the fresh identifier. -/
theorem c2_store_pipeline_run_atomic (db : RegistryDB) (rd : RunData)
    (cdf : ChangesFrame) (nowIso : String) (failRun : Bool)
    (failAt : Option Nat) (k : Nat)
    (hfail : failRun = true ∨
      (failAt = some k ∧ k < (effective_rows cdf).length))
    (hfresh : ∀ r ∈ db.runs, r.run_id ≠ db.nextRunId) :
    store_pipeline_run db rd cdf nowIso failRun failAt = (db, Option.none) ∧
    ∀ limit : Nat,
      ∀ s ∈ get_recent_runs
        (store_pipeline_run db rd cdf nowIso failRun failAt).1 limit,
        s.run_id ≠ db.nextRunId := by
  have hres : store_pipeline_run db rd cdf nowIso failRun failAt =
      (db, Option.none) := by
    rcases hfail with h | ⟨hfa, hk⟩
    · subst h
      simp [store_pipeline_run]
    · subst hfa
      unfold store_pipeline_run
      rcases failRun with _ | _
      · rw [if_neg (by simp)]
        rw [insert_changes_error db.nextRunId nowIso k (effective_rows cdf) _ 0
          (Nat.zero_le k) (by simpa using hk)]
      · simp
  refine ⟨hres, ?_⟩
  intro limit s hs
  rw [hres] at hs
  simp only [get_recent_runs, List.mem_map] at hs
  obtain ⟨r, hr, rfl⟩ := hs
  have hr2 : r ∈ db.runs.mergeSort (fun a b => decide (b.timestamp ≤ a.timestamp)) :=
    List.take_subset _ _ hr
  have hr3 : r ∈ db.runs := (List.mergeSort_perm db.runs _).mem_iff.mp hr2
  exact hfresh r hr3

theorem c2_store_pipeline_run_atomic_witness :
    (∀ r ∈ exDB.runs, r.run_id ≠ exDB.nextRunId) ∧
    (store_pipeline_run exDB exRun exFrame "now" false (some 0) =
      (exDB, Option.none) ∧
     ∀ limit : Nat,
       ∀ s ∈ get_recent_runs
         (store_pipeline_run exDB exRun exFrame "now" false (some 0)).1 limit,
         s.run_id ≠ exDB.nextRunId) :=
  ⟨by simp [exDB],
   c2_store_pipeline_run_atomic exDB exRun exFrame "now" false (some 0) 0
     (Or.inr ⟨rfl, by decide⟩) (by simp [exDB])⟩

/-- C9: store_pipeline_run silently inserts zero change rows — while still
committing the run row and returning the fresh run identifier — whenever
the supplied changes frame is empty or lacks a 'column' field; no error is
raised (any potential change-insert failure cannot trigger), and the run is
durably recorded with its metadata but no associated change rows. -/
theorem c9_empty_changes_frame_silently_skipped (db : RegistryDB)
    (rd : RunData) (cdf : ChangesFrame) (nowIso : String) (failAt : Option Nat)
    (h : cdf.rows = [] ∨ cdf.hasColumnField = false) :
    store_pipeline_run db rd cdf nowIso false failAt =
      ({ db with nextRunId := db.nextRunId + 1,
                 runs := db.runs ++ [mk_run_row db.nextRunId rd] },
       some db.nextRunId) := by
  have he : effective_rows cdf = [] := by
    rcases h with h | h <;> simp [effective_rows, h]
  simp [store_pipeline_run, he, insert_changes, insert_run_row]

theorem c9_empty_changes_frame_silently_skipped_witness :
    (exEmptyFrame.rows = [] ∨ exEmptyFrame.hasColumnField = false) ∧
    store_pipeline_run exDB exRun exEmptyFrame "now" false (some 0) =
      ({ exDB with nextRunId := exDB.nextRunId + 1,
                   runs := exDB.runs ++ [mk_run_row exDB.nextRunId exRun] },
       some exDB.nextRunId) :=
  ⟨Or.inl rfl,
   c9_empty_changes_frame_silently_skipped exDB exRun exEmptyFrame "now"
     (some 0) (Or.inl rfl)⟩

/-! ## Claim theorems: missing-value fills (C1) -/

lemma fill_step_column (c : ColData) :
    ∀ r ∈ (fill_step c).2, r.column = c.name := by
  intro r hr
  unfold fill_step at hr
  split at hr
  · simp at hr
  · split at hr
    · simp at hr
      subst hr
      rfl
    · split at hr <;> (simp at hr; subst hr; rfl)

lemma fill_step_fields (c : ColData) :
    ∀ r ∈ (fill_step c).2,
      r.original_value = Option.none ∧ r.row_index = Option.none := by
  intro r hr
  unfold fill_step at hr
  split at hr
  · simp at hr
  · split at hr
    · simp at hr
      subst hr
      exact ⟨rfl, rfl⟩
    · split at hr <;> (simp at hr; subst hr; exact ⟨rfl, rfl⟩)

lemma fill_step_length (c : ColData) :
    (fill_step c).2.length =
      if c.cells.countP (fun x => x == Cell.na) = 0 then 0 else 1 := by
  by_cases h0 : c.cells.countP (fun x => x == Cell.na) = 0
  · simp [fill_step, h0]
  · by_cases ho : c.isObj = true
    · simp [fill_step, h0, ho]
    · cases hm : column_median c.cells <;> simp [fill_step, h0, ho, hm]

lemma countP_na_map_fill (v : Cell) (hv : v ≠ Cell.na) (cells : List Cell) :
    (cells.map (fill_cell v)).countP (fun x => x == Cell.na) = 0 := by
  rw [List.countP_eq_zero]
  intro a ha
  obtain ⟨x, hx, rfl⟩ := List.mem_map.mp ha
  cases x <;> simp [fill_cell, beq_iff_eq, hv]

lemma fill_step_no_missing (c : ColData)
    (h : c.isObj = true ∨ (column_median c.cells).isSome ∨
         c.cells.countP (fun x => x == Cell.na) = 0) :
    (fill_step c).1.cells.countP (fun x => x == Cell.na) = 0 := by
  by_cases h0 : c.cells.countP (fun x => x == Cell.na) = 0
  · simp [fill_step, h0]
  · by_cases ho : c.isObj = true
    · unfold fill_step
      rw [if_neg h0, if_pos ho]
      exact countP_na_map_fill _ (by simp) c.cells
    · cases hm : column_median c.cells with
      | some m =>
          unfold fill_step
          rw [if_neg h0, if_neg ho, hm]
          exact countP_na_map_fill _ (by simp) c.cells
      | none =>
          exfalso
          rcases h with h | h | h
          · exact ho h
          · rw [hm] at h
            simp at h
          · exact h0 h

lemma fill_missing_countP (A B : List ColData) (c : ColData)
    (hA : ∀ x ∈ A, x.name ≠ c.name) (hB : ∀ x ∈ B, x.name ≠ c.name) :
    (((A ++ c :: B).map (fun x => (fill_step x).2)).flatten).countP
        (fun r => r.column == c.name) =
      if c.cells.countP (fun x => x == Cell.na) = 0 then 0 else 1 := by
  have h1 : ∀ a ∈ A, ∀ r ∈ (fill_step a).2, (r.column == c.name) = false := by
    intro a ha r hr
    rw [fill_step_column a r hr]
    exact beq_eq_false_iff_ne.mpr (hA a ha)
  have h2 : ∀ a ∈ B, ∀ r ∈ (fill_step a).2, (r.column == c.name) = false := by
    intro a ha r hr
    rw [fill_step_column a r hr]
    exact beq_eq_false_iff_ne.mpr (hB a ha)
  rw [countP_flatten_split (fun r => r.column == c.name)
    (fun x => (fill_step x).2) A B c h1 h2]
  rw [List.countP_eq_length.mpr (fun r hr => by
    rw [fill_step_column c r hr]; exact beq_self_eq_true c.name)]
  exact fill_step_length c

/-- C1 counterexample: in the deduplicated example frame the object column
"b" is missing at row 0; after clean_dataframe the cell is filled, but the
change log holds NO record whose column and row_index match that cell (the
single record logged for the fill carries no row_index at all), so "exactly
one ChangeRecord whose column and row_index match that cell" fails. -/
theorem c1_counterexample :
    (exMissDF.cols.getD 1 defCol).cells.getD 0 Cell.na = Cell.na ∧
    ((basic_cleaning exMissDF).1.cols.getD 1 defCol).cells.getD 0 Cell.na ≠ Cell.na ∧
    (basic_cleaning exMissDF).2.countP
      (fun r => r.column == "b" && r.row_index == some 0) = 0 := by decide

/-- C1 amended: after clean_dataframe, for every column of the deduplicated
frame the change log contains exactly one fill ChangeRecord per affected
COLUMN (one record when the column had any missing cell, none otherwise) -
not one per affected cell; every fill record has original_value null and a
null row_index; and every missing cell is indeed non-missing afterwards,
provided a numeric column has a computable median (some non-missing value)
- object columns unconditionally. -/
theorem c1_amended_fill_logged_per_column (df : DF) (i : Nat)
    (hn : ((dedup_stage df).cols.map ColData.name).Nodup)
    (hi : i < (dedup_stage df).cols.length) :
    ((basic_cleaning df).2.countP
        (fun r => r.column == ((dedup_stage df).cols.getD i defCol).name) =
      if ((dedup_stage df).cols.getD i defCol).cells.countP
          (fun x => x == Cell.na) = 0 then 0 else 1) ∧
    (∀ r ∈ (basic_cleaning df).2,
        r.original_value = Option.none ∧ r.row_index = Option.none) ∧
    (((dedup_stage df).cols.getD i defCol).isObj = true ∨
        (column_median ((dedup_stage df).cols.getD i defCol).cells).isSome ∨
        ((dedup_stage df).cols.getD i defCol).cells.countP
          (fun x => x == Cell.na) = 0 →
      ((basic_cleaning df).1.cols.getD i defCol).cells.countP
        (fun x => x == Cell.na) = 0) := by
  have hbc2 : (basic_cleaning df).2 =
      ((dedup_stage df).cols.map (fun x => (fill_step x).2)).flatten := rfl
  have hbc1 : (basic_cleaning df).1.cols =
      (dedup_stage df).cols.map (fun x => (fill_step x).1) := rfl
  set L := (dedup_stage df).cols with hLdef
  set c0 := L.getD i defCol with hc0
  have hc0e : c0 = L[i] := by
    rw [hc0, List.getD_eq_getElem L defCol hi]
  obtain ⟨hA, hB⟩ := nodup_name_split hi hn
  have hsplit : L = L.take i ++ c0 :: L.drop (i + 1) := by
    rw [hc0e]
    exact split_at_getElem L i hi
  refine ⟨?_, ?_, ?_⟩
  · rw [hbc2]
    rw [hsplit]
    exact fill_missing_countP (L.take i) (L.drop (i + 1)) c0
      (fun x hx => by rw [hc0e]; exact hA x hx)
      (fun x hx => by rw [hc0e]; exact hB x hx)
  · rw [hbc2]
    intro r hr
    rw [List.mem_flatten] at hr
    obtain ⟨m, hm, hrm⟩ := hr
    obtain ⟨a, -, rfl⟩ := List.mem_map.mp hm
    exact fill_step_fields a r hrm
  · intro h
    rw [hbc1, getD_map_of_lt _ L i defCol defCol hi]
    exact fill_step_no_missing _ h

theorem c1_amended_fill_logged_per_column_witness :
    ((dedup_stage exMissDF).cols.map ColData.name).Nodup ∧
    ((basic_cleaning exMissDF).2.countP
        (fun r => r.column == ((dedup_stage exMissDF).cols.getD 1 defCol).name) =
      if ((dedup_stage exMissDF).cols.getD 1 defCol).cells.countP
          (fun x => x == Cell.na) = 0 then 0 else 1) :=
  ⟨by decide,
   (c1_amended_fill_logged_per_column exMissDF 1 (by decide) (by decide)).1⟩

/-! ## Claim theorems: row dropping (C3) -/

lemma keep_rows_index_length (df : DF) (keep : Nat → Bool) :
    (keep_rows df keep).index.length = (kept_positions df keep).length := by
  simp [keep_rows]

lemma kept_positions_spec (df : DF) (keep : Nat → Bool) (k : Nat)
    (hk : k < (kept_positions df keep).length) :
    (kept_positions df keep).getD k 0 < df.index.length ∧
    keep ((kept_positions df keep).getD k 0) = true :=
  filter_range_getD_lt df.index.length keep k hk

lemma kept_positions_mono (df : DF) (keep : Nat → Bool) (k l : Nat)
    (hkl : k < l) (hl : l < (kept_positions df keep).length) :
    (kept_positions df keep).getD k 0 < (kept_positions df keep).getD l 0 :=
  filter_range_getD_mono df.index.length keep k l hkl hl

lemma row_at_keep_rows (df : DF) (keep : Nat → Bool) (k : Nat)
    (hk : k < (kept_positions df keep).length) :
    row_at (keep_rows df keep).cols k =
      row_at df.cols ((kept_positions df keep).getD k 0) := by
  unfold row_at keep_rows
  simp only [List.map_map]
  apply List.map_congr_left
  intro c _
  simp only [Function.comp_apply]
  exact getD_map_of_lt _ _ k Cell.na 0 hk

lemma keep_rows_no_dups_gen (df : DF) (keep : Nat → Bool)
    (hkeep : ∀ r, keep r = true → is_dup df.cols r = false) :
    no_duplicate_rows (keep_rows df keep) := by
  intro p q hpq hq
  have hq2 : q < (kept_positions df keep).length := by
    rw [← keep_rows_index_length]
    exact hq
  have hp2 : p < (kept_positions df keep).length := lt_trans hpq hq2
  rw [row_at_keep_rows df keep p hp2, row_at_keep_rows df keep q hq2]
  have hPQ := kept_positions_mono df keep p q hpq hq2
  obtain ⟨-, hQk⟩ := kept_positions_spec df keep q hq2
  intro heq
  have hd : is_dup df.cols ((kept_positions df keep).getD q 0) = true := by
    unfold is_dup
    rw [List.any_eq_true]
    exact ⟨_, List.mem_range.mpr hPQ, by unfold row_eq; exact beq_iff_eq.mpr heq⟩
  rw [hkeep _ hQk] at hd
  exact Bool.false_ne_true hd

lemma keep_rows_no_empty_gen (df : DF) (keep : Nat → Bool)
    (hkeep : ∀ r, keep r = true → row_all_na df.cols r = false) :
    no_empty_rows (keep_rows df keep) := by
  intro p hp
  have hp2 : p < (kept_positions df keep).length := by
    rw [← keep_rows_index_length]
    exact hp
  obtain ⟨-, hk⟩ := kept_positions_spec df keep p hp2
  unfold row_all_na
  rw [row_at_keep_rows df keep p hp2]
  exact hkeep _ hk

lemma keep_rows_no_empty_of_no_empty (df : DF) (keep : Nat → Bool)
    (h : no_empty_rows df) : no_empty_rows (keep_rows df keep) := by
  intro p hp
  have hp2 : p < (kept_positions df keep).length := by
    rw [← keep_rows_index_length]
    exact hp
  obtain ⟨hlt, -⟩ := kept_positions_spec df keep p hp2
  unfold row_all_na
  rw [row_at_keep_rows df keep p hp2]
  exact h _ hlt

lemma drop_duplicates_no_dups (df : DF) :
    no_duplicate_rows (drop_duplicates df) :=
  keep_rows_no_dups_gen df _ (fun r hr => by simpa using hr)

lemma dropna_all_no_empty (df : DF) : no_empty_rows (dropna_all df) :=
  keep_rows_no_empty_gen df _ (fun r hr => by simpa using hr)

lemma dedup_stage_no_empty (df : DF) : no_empty_rows (dedup_stage df) :=
  keep_rows_no_empty_of_no_empty (dropna_all df) _ (dropna_all_no_empty df)

lemma dedup_stage_no_dups (df : DF) : no_duplicate_rows (dedup_stage df) :=
  drop_duplicates_no_dups (dropna_all df)

lemma fill_step_preserves_cell (c : ColData) (p : Nat)
    (h : c.cells.getD p Cell.na ≠ Cell.na) :
    (fill_step c).1.cells.getD p Cell.na ≠ Cell.na := by
  have hlt : p < c.cells.length := by
    by_contra hge
    exact h (List.getD_eq_default _ _ (Nat.le_of_not_lt hge))
  unfold fill_step
  split
  · exact h
  · split
    · show (c.cells.map (fill_cell (Cell.strv "Unknown"))).getD p Cell.na ≠ Cell.na
      rw [getD_map_of_lt _ _ p Cell.na Cell.na hlt]
      cases hcell : c.cells.getD p Cell.na with
      | na => exact absurd hcell h
      | strv s => simp [fill_cell]
      | numv q => simp [fill_cell]
    · split
      · next m heq =>
          show (c.cells.map (fill_cell (Cell.numv m))).getD p Cell.na ≠ Cell.na
          rw [getD_map_of_lt _ _ p Cell.na Cell.na hlt]
          cases hcell : c.cells.getD p Cell.na with
          | na => exact absurd hcell h
          | strv s => simp [fill_cell]
          | numv q => simp [fill_cell]
      · exact h

lemma fill_missing_no_empty (df : DF) (h : no_empty_rows df) :
    no_empty_rows (fill_missing df).1 := by
  intro p hp
  have hp2 : p < df.index.length := by
    simpa [fill_missing] using hp
  have h0 := h p hp2
  unfold row_all_na at h0 ⊢
  rw [List.all_eq_false] at h0 ⊢
  obtain ⟨x, hx, hxna⟩ := h0
  obtain ⟨c, hc, rfl⟩ := List.mem_map.mp hx
  refine ⟨(fill_step c).1.cells.getD p Cell.na, ?_, ?_⟩
  · unfold row_at
    have hmem : (fill_step c).1 ∈ (fill_missing df).1.cols := by
      simp only [fill_missing]
      exact List.mem_map.mpr ⟨c, hc, rfl⟩
    exact List.mem_map.mpr ⟨(fill_step c).1, hmem, rfl⟩
  · have hne : c.cells.getD p Cell.na ≠ Cell.na := by
      simpa [beq_iff_eq] using hxna
    have hpres := fill_step_preserves_cell c p hne
    simpa [beq_iff_eq] using hpres

/-- C3 counterexample: on the example frame the two rows are distinct when
deduplication runs (one holds a missing cell, the other the string
"Unknown"), but the missing-value fill that runs afterwards turns both rows
into (1, "Unknown"): the dataset returned by clean_dataframe contains two
exact-duplicate rows. -/
theorem c3_counterexample :
    (clean_dataframe [] exDupDF).1.index.length = 2 ∧
    row_at (clean_dataframe [] exDupDF).1.cols 0 =
      row_at (clean_dataframe [] exDupDF).1.cols 1 := by decide

/-- C3 amended: immediately after the dropna/deduplication steps the frame
contains no fully-empty and no exact-duplicate rows, and the dataset
returned by clean_dataframe still contains no fully-empty rows; however the
missing-value fills that run after deduplication can merge previously
distinct rows, so the returned dataset may contain exact-duplicate rows. -/
theorem c3_amended_no_empty_rows_dedup_before_fill (df : DF) :
    no_duplicate_rows (dedup_stage df) ∧ no_empty_rows (dedup_stage df) ∧
    no_empty_rows (clean_dataframe [] df).1 :=
  ⟨dedup_stage_no_dups df, dedup_stage_no_empty df,
   fill_missing_no_empty (dedup_stage df) (dedup_stage_no_empty df)⟩

theorem c3_amended_no_empty_rows_dedup_before_fill_witness :
    row_at (dedup_stage exDupDF).cols 0 ≠ row_at (dedup_stage exDupDF).cols 1 :=
  (c3_amended_no_empty_rows_dedup_before_fill exDupDF).1 0 1 (by decide) (by decide)

/-! ## Claim theorems: IQR outlier capping (C6) -/

lemma outlier_records_shape (name : String) (lo hi : ℚ) :
    ∀ (cs : List Cell) (ls : List Nat) (r : ChangeRecord),
      r ∈ outlier_records name lo hi ls cs →
      r.column = name ∧ ∃ l ∈ ls, r.row_index = some l := by
  intro cs
  induction cs with
  | nil =>
      intro ls r hr
      cases ls <;> simp [outlier_records] at hr
  | cons c cs ih =>
      intro ls r hr
      cases ls with
      | nil => simp [outlier_records] at hr
      | cons l ls2 =>
          simp only [outlier_records, List.mem_append] at hr
          rcases hr with hr | hr
          · cases c with
            | na => simp at hr
            | strv s => simp at hr
            | numv v =>
                by_cases h1 : v < lo
                · simp only [h1, if_true, List.mem_singleton] at hr
                  subst hr
                  exact ⟨rfl, l, by simp, rfl⟩
                · by_cases h2 : hi < v
                  · simp only [h1, h2, if_false, if_true, List.mem_singleton] at hr
                    subst hr
                    exact ⟨rfl, l, by simp, rfl⟩
                  · simp [h1, h2] at hr
          · obtain ⟨hc, l2, hl2, hr2⟩ := ih ls2 r hr
            exact ⟨hc, l2, List.mem_cons_of_mem _ hl2, hr2⟩

lemma outlier_records_filter_nil (name : String) (lo hi : ℚ)
    (ls : List Nat) (cs : List Cell) (lbl : Nat) (hl : lbl ∉ ls) :
    (outlier_records name lo hi ls cs).filter
        (fun r => r.column == name && r.row_index == some lbl) = [] := by
  rw [List.filter_eq_nil_iff]
  intro r hr
  obtain ⟨-, l2, hl2, hr2⟩ := outlier_records_shape name lo hi cs ls r hr
  intro hp
  simp only [Bool.and_eq_true, beq_iff_eq] at hp
  rw [hr2] at hp
  obtain ⟨-, hp2⟩ := hp
  rw [Option.some.injEq] at hp2
  exact hl (hp2 ▸ hl2)

lemma outlier_records_filter_singleton (name : String) (lo hi : ℚ) :
    ∀ (cs : List Cell) (ls : List Nat) (pos : Nat) (v : ℚ) (lbl : Nat),
      ls.Nodup → pos < cs.length → pos < ls.length →
      cs.getD pos Cell.na = Cell.numv v → (v < lo ∨ hi < v) →
      ls.getD pos 0 = lbl →
      (outlier_records name lo hi ls cs).filter
          (fun r => r.column == name && r.row_index == some lbl) =
        [⟨name, "ml_outlier_correction", some (rat_str v),
          some (rat_str (if v < lo then lo else hi)), some lbl⟩] := by
  intro cs
  induction cs with
  | nil =>
      intro ls pos v lbl hnd hpc hpl hcell hout hlbl
      simp at hpc
  | cons c cs ih =>
      intro ls pos v lbl hnd hpc hpl hcell hout hlbl
      cases ls with
      | nil => simp at hpl
      | cons l ls2 =>
          rw [List.nodup_cons] at hnd
          cases pos with
          | zero =>
              rw [List.getD_cons_zero] at hcell hlbl
              subst hcell
              subst hlbl
              simp only [outlier_records, List.filter_append,
                outlier_records_filter_nil name lo hi ls2 cs l hnd.1,
                List.append_nil]
              by_cases h1 : v < lo
              · simp [h1]
              · rcases hout with h | h
                · exact absurd h h1
                · simp [h1, h]
          | succ k =>
              rw [List.getD_cons_succ] at hcell hlbl
              have hpl2 : k < ls2.length := by simpa using hpl
              have hpc2 : k < cs.length := by simpa using hpc
              have hlblmem : lbl ∈ ls2 := by
                rw [← hlbl, List.getD_eq_getElem ls2 0 hpl2]
                exact List.getElem_mem hpl2
              have hlne : l ≠ lbl := fun h => hnd.1 (h ▸ hlblmem)
              have htail := ih ls2 k v lbl hnd.2 hpc2 hpl2 hcell hout hlbl
              simp only [outlier_records, List.filter_append, htail]
              cases c with
              | na => simp
              | strv s => simp
              | numv w =>
                  by_cases h1 : w < lo
                  · simp [h1, hlne]
                  · by_cases h2 : hi < w
                    · simp [h1, h2, hlne]
                    · simp [h1, h2]

lemma ml_outlier_step_column (index : List Nat) (c : ColData) :
    ∀ r ∈ (ml_outlier_step index c).2, r.column = c.name := by
  intro r hr
  unfold ml_outlier_step at hr
  split at hr
  · simp at hr
  · split at hr
    · exact (outlier_records_shape c.name _ _ c.cells index r hr).1
    · simp at hr

/-- C6: in the ML-enhanced variant's outlier detection, for every numeric
column with IQR bounds [Q1 - 1.5*IQR, Q3 + 1.5*IQR], every cell whose value
lies outside the bounds is set to the nearest bound (below-lower goes to
the lower bound, above-upper to the upper bound), and exactly one
ml_outlier_correction ChangeRecord is logged for that cell, carrying the
original value as before-value, the bound as after-value, and the cell's
row index label. -/
theorem c6_outlier_capping (df : DF) (i pos : Nat) (q1 q3 v : ℚ) (lbl : Nat)
    (hn : (df.cols.map ColData.name).Nodup)
    (hidx : df.index.Nodup)
    (hi : i < df.cols.length)
    (hobj : (df.cols.getD i defCol).isObj = false)
    (hq1 : quantile_linear (numeric_values (df.cols.getD i defCol).cells)
      1 4 = some q1)
    (hq3 : quantile_linear (numeric_values (df.cols.getD i defCol).cells)
      3 4 = some q3)
    (hpos : pos < (df.cols.getD i defCol).cells.length)
    (hposidx : pos < df.index.length)
    (hcell : (df.cols.getD i defCol).cells.getD pos Cell.na = Cell.numv v)
    (hlbl : df.index.getD pos 0 = lbl)
    (hout : v < q1 - 3/2 * (q3 - q1) ∨ q3 + 3/2 * (q3 - q1) < v) :
    ((ml_outlier_detection df).1.cols.getD i defCol).cells.getD pos Cell.na =
      Cell.numv (if v < q1 - 3/2 * (q3 - q1) then q1 - 3/2 * (q3 - q1)
                 else q3 + 3/2 * (q3 - q1)) ∧
    (ml_outlier_detection df).2.countP
        (fun r => r.column == (df.cols.getD i defCol).name &&
                  r.row_index == some lbl) = 1 ∧
    ∀ r ∈ (ml_outlier_detection df).2,
      (r.column == (df.cols.getD i defCol).name &&
       r.row_index == some lbl) = true →
      r = ⟨(df.cols.getD i defCol).name, "ml_outlier_correction",
           some (rat_str v),
           some (rat_str (if v < q1 - 3/2 * (q3 - q1) then q1 - 3/2 * (q3 - q1)
                          else q3 + 3/2 * (q3 - q1))), some lbl⟩ := by
  have hdet2 : (ml_outlier_detection df).2 =
      (df.cols.map (fun c => (ml_outlier_step df.index c).2)).flatten := rfl
  have hdet1 : (ml_outlier_detection df).1.cols =
      df.cols.map (fun c => (ml_outlier_step df.index c).1) := rfl
  set c0 := df.cols.getD i defCol with hc0
  have hc0e : c0 = df.cols[i] := by
    rw [hc0, List.getD_eq_getElem df.cols defCol hi]
  have hstep2 : (ml_outlier_step df.index c0).2 =
      outlier_records c0.name (q1 - 3/2 * (q3 - q1)) (q3 + 3/2 * (q3 - q1))
        df.index c0.cells := by
    unfold ml_outlier_step
    rw [if_neg (by simp [hobj]), hq1, hq3]
  have hstep1 : (ml_outlier_step df.index c0).1.cells =
      c0.cells.map (cap_cell (q1 - 3/2 * (q3 - q1)) (q3 + 3/2 * (q3 - q1))) := by
    unfold ml_outlier_step
    rw [if_neg (by simp [hobj]), hq1, hq3]
  have hsingle := outlier_records_filter_singleton c0.name
    (q1 - 3/2 * (q3 - q1)) (q3 + 3/2 * (q3 - q1)) c0.cells df.index pos v lbl
    hidx hpos hposidx hcell hout hlbl
  obtain ⟨hA, hB⟩ := nodup_name_split hi hn
  have hsplit : df.cols = df.cols.take i ++ c0 :: df.cols.drop (i + 1) := by
    rw [hc0e]
    exact split_at_getElem df.cols i hi
  have hfalse : ∀ a : ColData, a.name ≠ c0.name →
      ∀ r ∈ (ml_outlier_step df.index a).2,
        (r.column == c0.name && r.row_index == some lbl) = false := by
    intro a ha r hr
    rw [ml_outlier_step_column df.index a r hr]
    simp [ha]
  have hfA : ∀ a ∈ df.cols.take i, ∀ r ∈ (ml_outlier_step df.index a).2,
      (r.column == c0.name && r.row_index == some lbl) = false :=
    fun a hamem => hfalse a (by rw [hc0e]; exact hA a hamem)
  have hfB : ∀ a ∈ df.cols.drop (i + 1), ∀ r ∈ (ml_outlier_step df.index a).2,
      (r.column == c0.name && r.row_index == some lbl) = false :=
    fun a hamem => hfalse a (by rw [hc0e]; exact hB a hamem)
  refine ⟨?_, ?_, ?_⟩
  · rw [hdet1, getD_map_of_lt _ df.cols i defCol defCol hi, ← hc0, hstep1,
      getD_map_of_lt _ c0.cells pos Cell.na Cell.na hpos, hcell]
    by_cases h1 : v < q1 - 3/2 * (q3 - q1)
    · simp [cap_cell, h1]
    · rcases hout with h | h
      · exact absurd h h1
      · simp [cap_cell, h1, h]
  · rw [hdet2, hsplit,
      countP_flatten_split _ (fun c => (ml_outlier_step df.index c).2)
        (df.cols.take i) (df.cols.drop (i + 1)) c0 hfA hfB,
      List.countP_eq_length_filter, hstep2, hsingle]
    rfl
  · intro r hr hp
    rw [hdet2, hsplit] at hr
    have hmem := mem_flatten_split _ (fun c => (ml_outlier_step df.index c).2)
      (df.cols.take i) (df.cols.drop (i + 1)) c0 hfA hfB r hr hp
    have hmem2 : r ∈ (ml_outlier_step df.index c0).2 := hmem
    rw [hstep2] at hmem2
    have hfilt : r ∈ (outlier_records c0.name (q1 - 3/2 * (q3 - q1))
        (q3 + 3/2 * (q3 - q1)) df.index c0.cells).filter
        (fun r => r.column == c0.name && r.row_index == some lbl) :=
      List.mem_filter.mpr ⟨hmem2, hp⟩
    rw [hsingle] at hfilt
    exact List.mem_singleton.mp hfilt

theorem c6_outlier_capping_witness :
    (exOutlierDF.cols.map ColData.name).Nodup ∧
    exOutlierDF.index.Nodup ∧
    (ml_outlier_detection exOutlierDF).2.countP
        (fun r => r.column == (exOutlierDF.cols.getD 0 defCol).name &&
                  r.row_index == some 4) = 1 := by
  have hs : sortRat (numeric_values (exOutlierDF.cols.getD 0 defCol).cells) =
      [1, 2, 2, 3, 100] := by decide
  have hq1 : quantile_linear
      (numeric_values (exOutlierDF.cols.getD 0 defCol).cells) 1 4 = some 2 := by
    unfold quantile_linear
    rw [hs]
    norm_num [quantile_lower, quantile_upper, quantile_index,
      List.getD_cons_zero, List.getD_cons_succ]
    intro h
    exact absurd h (by decide)
  have hq3 : quantile_linear
      (numeric_values (exOutlierDF.cols.getD 0 defCol).cells) 3 4 = some 3 := by
    unfold quantile_linear
    rw [hs]
    norm_num [quantile_lower, quantile_upper, quantile_index,
      List.getD_cons_zero, List.getD_cons_succ]
    intro h
    exact absurd h (by decide)
  have hout : (100 : ℚ) < 2 - 3/2 * (3 - 2) ∨ (3 : ℚ) + 3/2 * (3 - 2) < 100 := by
    right
    norm_num
  exact ⟨by decide, by decide,
    (c6_outlier_capping exOutlierDF 0 4 2 3 100 4 (by decide) (by decide)
      (by decide) (by decide) hq1 hq3 (by decide) (by decide) (by decide)
      (by decide) hout).2.1⟩

end Pipeline
